import Mathlib

/-!
Shallow embedding of the WebSocket signaling relay in
`WebRTC_video_calling.py`: the module-level `rooms` registry and the
`ws_handler` coroutine, modelled sequentially (one handler step at a time).
Deliveries to peer sockets are recorded in a send log; whether a
`send_json` to a given socket raises is an environment parameter
(`broken`), as is the outcome of `json.loads` (`parse`).
-/

namespace WebRTCSignaling

/-- A connection handle: the identity of one `web.WebSocketResponse`. -/
abbrev Conn := Nat

/-- A room identifier (the `room` query parameter). -/
abbrev RoomId := String

/-- The module-level `rooms = {}  # room_id -> set of WebSocketResponse`,
modelled as an association list from room id to member list; the member
list plays the role of the Python `set` (iteration order fixed to
insertion order, no duplicates maintained by the operations). -/
abbrev Registry := List (RoomId × List Conn)

/-- Parsed JSON values, the result type of a successful `json.loads`. -/
inductive Json where
  | null : Json
  | bool (b : Bool) : Json
  | num (n : Int) : Json
  | str (s : String) : Json
  | arr (elems : List Json) : Json
  | obj (fields : List (String × Json)) : Json

/-- First-match lookup in the registry, as Python's `rooms[room_id]` /
`room_id in rooms`. -/
def lookupRoom (reg : Registry) (r : RoomId) : Option (List Conn) :=
  match reg with
  | [] => none
  | e :: rest => if e.1 = r then some e.2 else lookupRoom rest r

/-- Replace the member list stored under a room id (in-place mutation of
the set object referenced by `rooms[room_id]`). -/
def updateRoom (reg : Registry) (r : RoomId) (ms : List Conn) : Registry :=
  reg.map (fun e => if e.1 = r then (r, ms) else e)

/-- Delete a room id, as `rooms.pop(room_id, None)`. -/
def removeRoom (reg : Registry) (r : RoomId) : Registry :=
  reg.filter (fun e => e.1 != r)

/-- `peers = rooms.setdefault(room_id, set()); peers.add(ws)` followed by
`len(peers)`: returns the new registry and the member count right after
the add. -/
def joinRoom (reg : Registry) (r : RoomId) (c : Conn) : Registry × Nat :=
  match lookupRoom reg r with
  | none => (reg ++ [(r, [c])], 1)
  | some ms =>
      let ms' := if c ∈ ms then ms else ms ++ [c]
      (updateRoom reg r ms', ms'.length)

/-- The cleanup in the handler's `finally`:
`peers.discard(ws); if not peers: rooms.pop(room_id, None)`. -/
def leaveRoom (reg : Registry) (r : RoomId) (c : Conn) : Registry :=
  match lookupRoom reg r with
  | none => reg
  | some ms =>
      let ms' := ms.filter (fun x => x != c)
      if ms' = [] then removeRoom reg r else updateRoom reg r ms'

/-- Frame types of inbound WebSocket messages (`web.WSMsgType`). -/
inductive WSMsgType where
  | TEXT
  | BINARY
  | ERROR
  | PING
  | CLOSE
  deriving DecidableEq

/-- One inbound frame yielded by `async for msg in ws`. -/
structure WSMsg where
  type : WSMsgType
  data : String
  deriving DecidableEq

/-- A JSON message written to a peer socket by the server. -/
inductive OutMsg where
  | joined (count : Nat)
  | peers (count : Nat)
  | relay (payload : Json)

/-- The post-join notification loop:
`for p in list(peers): if p is not ws: try: await p.send_json({"type":"peers",...}) except Exception: pass`.
A failing send is swallowed for that member only. Returns the deliveries
made, in iteration order. -/
def notifyPeers (broken : Conn → Bool) (ws : Conn) (count : Nat) :
    List Conn → List (Conn × OutMsg)
  | [] => []
  | p :: ps =>
      if p = ws then notifyPeers broken ws count ps
      else if broken p then notifyPeers broken ws count ps
      else (p, OutMsg.peers count) :: notifyPeers broken ws count ps

/-- One broadcast pass of the relay:
`for p in list(peers): if p is not ws: await p.send_json(payload)`.
There is no try/except here: the first failing send raises out of the
loop. Returns the deliveries made before any failure and whether an
exception was raised. -/
def relayAll (broken : Conn → Bool) (ws : Conn) (payload : Json) :
    List Conn → List (Conn × OutMsg) × Bool
  | [] => ([], false)
  | p :: ps =>
      if p = ws then relayAll broken ws payload ps
      else if broken p then ([], true)
      else
        let rest := relayAll broken ws payload ps
        ((p, OutMsg.relay payload) :: rest.1, rest.2)

/-- Outcome of the `async for msg in ws` receive loop: the deliveries
made to peers and whether an exception escaped the loop (a `json.loads`
failure, a failed relay send, or a transport error ending the
iteration). -/
structure LoopResult where
  sent : List (Conn × OutMsg)
  raised : Bool

/-- The receive loop body: a TEXT frame is parsed (`json.loads` raises on
ill-formed data) and relayed to the other members; an ERROR frame is
logged and the loop continues; every other frame type falls through the
`if`/`elif` and is ignored. `streamCrash` tells whether the iteration
itself ends by raising a transport error instead of a normal close. -/
def recvLoop (parse : String → Option Json) (broken : Conn → Bool)
    (ws : Conn) (mems : List Conn) : List WSMsg → Bool → LoopResult
  | [], streamCrash => ⟨[], streamCrash⟩
  | m :: ms, streamCrash =>
      match m.type with
      | WSMsgType.TEXT =>
          match parse m.data with
          | none => ⟨[], true⟩
          | some payload =>
              let d := relayAll broken ws payload mems
              if d.2 then ⟨d.1, true⟩
              else
                let rest := recvLoop parse broken ws mems ms streamCrash
                ⟨d.1 ++ rest.sent, rest.raised⟩
      | WSMsgType.ERROR => recvLoop parse broken ws mems ms streamCrash
      | _ => recvLoop parse broken ws mems ms streamCrash

/-- The observable outcome of one full `ws_handler` run. -/
structure HandlerResult where
  reg : Registry
  sent : List (Conn × OutMsg)
  joinRaised : Bool
  loopRaised : Bool

/-- The whole of `ws_handler`, run sequentially against registry `reg0`:
read the `room` query parameter (defaulting to `"default"`), join, send
the `joined` count to the new socket, notify the existing members,
run the receive loop inside `try`, and run the `finally` cleanup.
The `joined` send happens before the `try`/`finally`: if it raises
(`broken ws`), the handler exits with no cleanup. -/
def ws_handler (parse : String → Option Json) (broken : Conn → Bool)
    (reg0 : Registry) (roomQuery : Option RoomId) (ws : Conn)
    (msgs : List WSMsg) (streamCrash : Bool) : HandlerResult :=
  let room := roomQuery.getD "default"
  let j := joinRoom reg0 room ws
  if broken ws then
    ⟨j.1, [], true, false⟩
  else
    let mems := (lookupRoom j.1 room).getD []
    let notifs := notifyPeers broken ws j.2 mems
    let lr := recvLoop parse broken ws mems msgs streamCrash
    ⟨leaveRoom j.1 room ws, (ws, OutMsg.joined j.2) :: notifs ++ lr.sent,
      false, lr.raised⟩

/-- Registry wellformedness: room keys are distinct (a Python dict) and
every stored member list is non-empty and duplicate-free (a Python set
that is always non-empty between operations). -/
abbrev RegWF (reg : Registry) : Prop :=
  (reg.map Prod.fst).Nodup ∧ ∀ e ∈ reg, e.2 ≠ [] ∧ e.2.Nodup

/-- Iterated joins to the same room: the count reported to each successive
joiner, in join order. -/
def joinCounts (reg : Registry) (room : RoomId) : List Conn → List Nat
  | [] => []
  | c :: cs =>
      let j := joinRoom reg room c
      j.2 :: joinCounts j.1 room cs

/-! Basic lemmas about the registry operations. -/

theorem lookupRoom_cons (e : RoomId × List Conn) (reg : Registry) (r : RoomId) :
    lookupRoom (e :: reg) r = if e.1 = r then some e.2 else lookupRoom reg r := rfl

theorem lookupRoom_eq_none_iff (reg : Registry) (r : RoomId) :
    lookupRoom reg r = none ↔ ∀ e ∈ reg, e.1 ≠ r := by
  induction reg with
  | nil => simp [lookupRoom]
  | cons e rest ih =>
      by_cases h : e.1 = r <;> simp [lookupRoom_cons, h, ih]

theorem lookupRoom_mem {reg : Registry} {r : RoomId} {ms : List Conn}
    (h : lookupRoom reg r = some ms) : (r, ms) ∈ reg := by
  induction reg with
  | nil => simp [lookupRoom] at h
  | cons e rest ih =>
      rw [lookupRoom_cons] at h
      by_cases he : e.1 = r
      · rw [if_pos he] at h
        obtain ⟨e1, e2⟩ := e
        simp only at he h
        injection h with h2
        subst he
        subst h2
        exact List.mem_cons_self _ _
      · rw [if_neg he] at h
        exact List.mem_cons_of_mem _ (ih h)

theorem lookupRoom_updateRoom_self {reg : Registry} {r : RoomId} {v : List Conn}
    (ms : List Conn) (h : lookupRoom reg r = some v) :
    lookupRoom (updateRoom reg r ms) r = some ms := by
  induction reg with
  | nil => simp [lookupRoom] at h
  | cons e rest ih =>
      rw [lookupRoom_cons] at h
      by_cases he : e.1 = r
      · simp [updateRoom, lookupRoom_cons, he]
      · rw [if_neg he] at h
        have := ih h
        simpa [updateRoom, lookupRoom_cons, he] using this

theorem lookupRoom_updateRoom_ne (reg : Registry) {r r' : RoomId} (ms : List Conn)
    (h : r' ≠ r) : lookupRoom (updateRoom reg r ms) r' = lookupRoom reg r' := by
  induction reg with
  | nil => rfl
  | cons e rest ih =>
      by_cases he : e.1 = r
      · subst he
        have h2 : ¬ (e.1 = r') := fun hc => h hc.symm
        simp [updateRoom, lookupRoom_cons, h2]
        simpa [updateRoom] using ih
      · simp only [updateRoom, List.map_cons, if_neg he]
        rw [lookupRoom_cons, lookupRoom_cons]
        by_cases he' : e.1 = r'
        · simp [he']
        · simp only [if_neg he']
          simpa [updateRoom] using ih

theorem lookupRoom_removeRoom_self (reg : Registry) (r : RoomId) :
    lookupRoom (removeRoom reg r) r = none := by
  rw [lookupRoom_eq_none_iff]
  intro e he
  have := List.of_mem_filter he
  simpa using this

theorem lookupRoom_removeRoom_ne (reg : Registry) {r r' : RoomId}
    (h : r' ≠ r) : lookupRoom (removeRoom reg r) r' = lookupRoom reg r' := by
  induction reg with
  | nil => rfl
  | cons e rest ih =>
      by_cases he : e.1 = r
      · have h2 : ¬ (e.1 = r') := fun hc => h (hc.symm.trans he)
        have hb : (e.1 != r) = false := by simp [he]
        rw [lookupRoom_cons, if_neg h2]
        simp only [removeRoom, List.filter_cons, hb, Bool.false_eq_true, if_false]
        simpa [removeRoom] using ih
      · have hb : (e.1 != r) = true := by simp [he]
        simp only [removeRoom, List.filter_cons, hb, if_true]
        rw [lookupRoom_cons, lookupRoom_cons]
        by_cases he' : e.1 = r'
        · simp [he']
        · simp only [if_neg he']
          simpa [removeRoom] using ih

theorem lookupRoom_append_self {reg : Registry} {r : RoomId} (ms : List Conn)
    (h : lookupRoom reg r = none) :
    lookupRoom (reg ++ [(r, ms)]) r = some ms := by
  induction reg with
  | nil => simp [lookupRoom]
  | cons e rest ih =>
      rw [lookupRoom_cons] at h
      by_cases he : e.1 = r
      · rw [if_pos he] at h
        exact absurd h (by simp)
      · rw [if_neg he] at h
        simpa [lookupRoom_cons, he] using ih h

theorem lookupRoom_append_ne (reg : Registry) {r r' : RoomId} (ms : List Conn)
    (h : r' ≠ r) : lookupRoom (reg ++ [(r, ms)]) r' = lookupRoom reg r' := by
  induction reg with
  | nil =>
      have h2 : ¬ (r = r') := fun hc => h hc.symm
      simp [lookupRoom, h2]
  | cons e rest ih =>
      by_cases he : e.1 = r'
      · simp [lookupRoom_cons, he]
      · simpa [lookupRoom_cons, he] using ih

theorem map_fst_updateRoom (reg : Registry) (r : RoomId) (ms : List Conn) :
    (updateRoom reg r ms).map Prod.fst = reg.map Prod.fst := by
  induction reg with
  | nil => rfl
  | cons e rest ih =>
      by_cases he : e.1 = r <;> simp [updateRoom, he] <;>
        simpa [updateRoom] using ih

theorem mem_updateRoom {reg : Registry} {r : RoomId} {ms : List Conn}
    {e' : RoomId × List Conn} (h : e' ∈ updateRoom reg r ms) :
    e' ∈ reg ∨ e' = (r, ms) := by
  obtain ⟨a, ha, hae⟩ := List.mem_map.mp h
  by_cases hr : a.1 = r
  · right
    rw [if_pos hr] at hae
    exact hae.symm
  · left
    rw [if_neg hr] at hae
    exact hae ▸ ha

theorem updateRoom_not_mem {reg : Registry} {r : RoomId} (ms : List Conn)
    (h : ∀ e ∈ reg, e.1 ≠ r) : updateRoom reg r ms = reg := by
  induction reg with
  | nil => rfl
  | cons e rest ih =>
      have he : e.1 ≠ r := h e (by simp)
      simp [updateRoom, he]
      have : ∀ e' ∈ rest, e'.1 ≠ r := fun e' he' => h e' (List.mem_cons_of_mem _ he')
      simpa [updateRoom] using ih this

theorem updateRoom_self_id {reg : Registry} {r : RoomId} {ms : List Conn}
    (hnd : (reg.map Prod.fst).Nodup) (h : lookupRoom reg r = some ms) :
    updateRoom reg r ms = reg := by
  induction reg with
  | nil => simp [lookupRoom] at h
  | cons e rest ih =>
      rw [lookupRoom_cons] at h
      rw [List.map_cons, List.nodup_cons] at hnd
      by_cases he : e.1 = r
      · rw [if_pos he] at h
        have hrest : ∀ e' ∈ rest, e'.1 ≠ r := by
          intro e' he'
          intro hc
          exact hnd.1 (he ▸ hc ▸ List.mem_map_of_mem Prod.fst he')
        have h2 : updateRoom rest r ms = rest := updateRoom_not_mem ms hrest
        obtain ⟨e1, e2⟩ := e
        simp only [updateRoom, List.map_cons] at h2 ⊢
        simp only at he h
        subst he
        simp_all
      · rw [if_neg he] at h
        simp only [updateRoom, List.map_cons, if_neg he]
        have := ih hnd.2 h
        simp only [updateRoom] at this
        rw [this]

theorem updateRoom_updateRoom (reg : Registry) (r : RoomId) (a b : List Conn) :
    updateRoom (updateRoom reg r a) r b = updateRoom reg r b := by
  unfold updateRoom
  rw [List.map_map]
  apply List.map_congr_left
  intro e _
  by_cases he : e.1 = r <;> simp [Function.comp, he]

/-! Lemmas about `joinRoom` and `leaveRoom`. -/

theorem joinRoom_fresh {reg : Registry} {r : RoomId} (c : Conn)
    (h : lookupRoom reg r = none) : joinRoom reg r c = (reg ++ [(r, [c])], 1) := by
  simp [joinRoom, h]

theorem joinRoom_existing {reg : Registry} {r : RoomId} {ms : List Conn} {c : Conn}
    (h : lookupRoom reg r = some ms) (hc : c ∉ ms) :
    joinRoom reg r c = (updateRoom reg r (ms ++ [c]), ms.length + 1) := by
  simp [joinRoom, h, hc]

theorem lookupRoom_joinRoom_self {reg : Registry} {r : RoomId} {ms : List Conn}
    {c : Conn} (h : lookupRoom reg r = some ms) (hc : c ∉ ms) :
    lookupRoom (joinRoom reg r c).1 r = some (ms ++ [c]) := by
  rw [joinRoom_existing h hc]
  exact lookupRoom_updateRoom_self _ h

theorem joinRoom_count (reg : Registry) (r : RoomId) (c : Conn) :
    (joinRoom reg r c).2 = ((lookupRoom (joinRoom reg r c).1 r).getD []).length := by
  cases hl : lookupRoom reg r with
  | none =>
      rw [joinRoom_fresh c hl]
      simp [lookupRoom_append_self _ hl]
  | some ms =>
      simp only [joinRoom, hl]
      rw [lookupRoom_updateRoom_self _ hl]
      simp

theorem RegWF_joinRoom {reg : Registry} (r : RoomId) (c : Conn) (h : RegWF reg) :
    RegWF (joinRoom reg r c).1 := by
  cases hl : lookupRoom reg r with
  | none =>
      rw [joinRoom_fresh c hl]
      constructor
      · have hr : r ∉ reg.map Prod.fst := by
          intro hmem
          obtain ⟨e, he, hfst⟩ := List.mem_map.mp hmem
          exact (lookupRoom_eq_none_iff reg r).mp hl e he hfst
        simp [List.nodup_append, h.1, hr]
      · intro e he
        rcases List.mem_append.mp he with h1 | h1
        · exact h.2 e h1
        · simp at h1
          subst h1
          simp
  | some ms =>
      have hmem : (r, ms) ∈ reg := lookupRoom_mem hl
      have hms := h.2 (r, ms) hmem
      simp only [joinRoom, hl]
      constructor
      · rw [map_fst_updateRoom]
        exact h.1
      · intro e he
        rcases mem_updateRoom he with h1 | h1
        · exact h.2 e h1
        · subst h1
          by_cases hc : c ∈ ms
          · simpa [hc] using hms
          · simp only [hc, if_false, ite_false]
            constructor
            · simp [hc]
            · simp [List.nodup_append, hms.2, hc]

theorem RegWF_leaveRoom {reg : Registry} (r : RoomId) (c : Conn) (h : RegWF reg) :
    RegWF (leaveRoom reg r c) := by
  cases hl : lookupRoom reg r with
  | none => simpa [leaveRoom, hl] using h
  | some ms =>
      have hmem : (r, ms) ∈ reg := lookupRoom_mem hl
      have hms := h.2 (r, ms) hmem
      simp only [leaveRoom, hl]
      by_cases hnil : ms.filter (fun x => x != c) = []
      · simp only [hnil, if_pos rfl]
        constructor
        · exact List.Nodup.sublist (List.Sublist.map _ (List.filter_sublist reg)) h.1
        · intro e he
          exact h.2 e (List.mem_of_mem_filter he)
      · simp only [hnil, if_neg hnil, ite_false]
        constructor
        · rw [map_fst_updateRoom]
          exact h.1
        · intro e he
          rcases mem_updateRoom he with h1 | h1
          · exact h.2 e h1
          · subst h1
            exact ⟨hnil, List.Nodup.filter _ hms.2⟩

theorem leaveRoom_self_not_mem (reg : Registry) (r : RoomId) (c : Conn) :
    c ∉ (lookupRoom (leaveRoom reg r c) r).getD [] := by
  cases hl : lookupRoom reg r with
  | none => simp [leaveRoom, hl]
  | some ms =>
      simp only [leaveRoom, hl]
      by_cases hnil : ms.filter (fun x => x != c) = []
      · simp [hnil, lookupRoom_removeRoom_self]
      · simp only [hnil, if_neg hnil, ite_false]
        rw [lookupRoom_updateRoom_self _ hl]
        simp only [Option.getD_some]
        intro hc
        have := List.of_mem_filter hc
        simp at this

theorem lookupRoom_leaveRoom_ne (reg : Registry) {r r' : RoomId} (c : Conn)
    (h : r' ≠ r) : lookupRoom (leaveRoom reg r c) r' = lookupRoom reg r' := by
  cases hl : lookupRoom reg r with
  | none => simp [leaveRoom, hl]
  | some ms =>
      simp only [leaveRoom, hl]
      by_cases hnil : ms.filter (fun x => x != c) = []
      · simp [hnil, lookupRoom_removeRoom_ne reg h]
      · simp [hnil, lookupRoom_updateRoom_ne reg _ h]

theorem leaveRoom_last {reg : Registry} {r : RoomId} {c : Conn}
    (h : lookupRoom reg r = some [c]) :
    lookupRoom (leaveRoom reg r c) r = none := by
  simp only [leaveRoom, h]
  have : ([c].filter (fun x => x != c)) = [] := by simp
  simp [this, lookupRoom_removeRoom_self]

theorem leaveRoom_no_op {reg : Registry} {r : RoomId} {c : Conn} (h : RegWF reg)
    (hc : ∀ ms, lookupRoom reg r = some ms → c ∉ ms) : leaveRoom reg r c = reg := by
  cases hl : lookupRoom reg r with
  | none => simp [leaveRoom, hl]
  | some ms =>
      have hcm := hc ms hl
      have hfil : ms.filter (fun x => x != c) = ms :=
        List.filter_eq_self.mpr (fun x hx => by
          simp only [bne_iff_ne, ne_eq, decide_eq_true_eq]
          intro hxc
          exact hcm (hxc ▸ hx))
      have hne : ms ≠ [] := (h.2 (r, ms) (lookupRoom_mem hl)).1
      simp only [leaveRoom, hl, hfil]
      rw [if_neg hne]
      exact updateRoom_self_id h.1 hl

theorem leaveRoom_idem (reg : Registry) (r : RoomId) (c : Conn) :
    leaveRoom (leaveRoom reg r c) r c = leaveRoom reg r c := by
  cases hl : lookupRoom reg r with
  | none => simp [leaveRoom, hl]
  | some ms =>
      by_cases hnil : ms.filter (fun x => x != c) = []
      · have h1 : leaveRoom reg r c = removeRoom reg r := by
          simp [leaveRoom, hl, hnil]
        rw [h1]
        simp [leaveRoom, lookupRoom_removeRoom_self]
      · have h1 : leaveRoom reg r c = updateRoom reg r (ms.filter (fun x => x != c)) := by
          simp [leaveRoom, hl, hnil]
        rw [h1]
        have h2 : lookupRoom (updateRoom reg r (ms.filter (fun x => x != c))) r
            = some (ms.filter (fun x => x != c)) := lookupRoom_updateRoom_self _ hl
        simp only [leaveRoom, h2]
        have h3 : (ms.filter (fun x => x != c)).filter (fun x => x != c)
            = ms.filter (fun x => x != c) := by
          apply List.filter_eq_self.mpr
          intro x hx
          exact (List.mem_filter.mp hx).2
        rw [h3, if_neg hnil]
        exact updateRoom_updateRoom reg r _ _

/-! Lemmas about the notification loop, the relay loop and the receive loop. -/

theorem notifyPeers_eq (broken : Conn → Bool) (ws : Conn) (n : Nat) (l : List Conn) :
    notifyPeers broken ws n l
      = (l.filter (fun p => p != ws && !broken p)).map (fun p => (p, OutMsg.peers n)) := by
  induction l with
  | nil => rfl
  | cons p ps ih =>
      by_cases h1 : p = ws
      · subst h1
        simp [notifyPeers, ih]
      · by_cases h2 : broken p = true
        · simp [notifyPeers, h1, h2, ih]
        · simp only [Bool.not_eq_true] at h2
          simp [notifyPeers, h1, h2, ih]

theorem relayAll_ok (broken : Conn → Bool) (ws : Conn) (payload : Json)
    {l : List Conn} (h : ∀ p ∈ l, p ≠ ws → broken p = false) :
    relayAll broken ws payload l
      = ((l.filter (fun p => p != ws)).map (fun p => (p, OutMsg.relay payload)), false) := by
  induction l with
  | nil => rfl
  | cons p ps ih =>
      have hps : ∀ q ∈ ps, q ≠ ws → broken q = false :=
        fun q hq => h q (List.mem_cons_of_mem _ hq)
      by_cases h1 : p = ws
      · subst h1
        simp [relayAll, ih hps]
      · have h2 : broken p = false := h p (List.mem_cons_self _ _) h1
        simp [relayAll, h1, h2, ih hps]

theorem relayAll_broken (broken : Conn → Bool) (ws : Conn) (payload : Json)
    {pre : List Conn} {b : Conn} (post : List Conn)
    (hpre : ∀ p ∈ pre, p ≠ ws → broken p = false)
    (hb : broken b = true) (hbw : b ≠ ws) :
    relayAll broken ws payload (pre ++ b :: post)
      = ((pre.filter (fun p => p != ws)).map (fun p => (p, OutMsg.relay payload)), true) := by
  induction pre with
  | nil => simp [relayAll, hbw, hb]
  | cons p ps ih =>
      have hps : ∀ q ∈ ps, q ≠ ws → broken q = false :=
        fun q hq => hpre q (List.mem_cons_of_mem _ hq)
      by_cases h1 : p = ws
      · subst h1
        simp [relayAll, ih hps]
      · have h2 : broken p = false := hpre p (List.mem_cons_self _ _) h1
        simp [relayAll, h1, h2, ih hps]

theorem relayAll_sent_form (broken : Conn → Bool) (ws : Conn) (payload : Json)
    (l : List Conn) :
    ∀ x ∈ (relayAll broken ws payload l).1, x.2 = OutMsg.relay payload ∧ x.1 ≠ ws := by
  induction l with
  | nil => simp [relayAll]
  | cons p ps ih =>
      by_cases h1 : p = ws
      · subst h1
        simpa [relayAll] using ih
      · by_cases h2 : broken p = true
        · simp [relayAll, h1, h2]
        · simp only [Bool.not_eq_true] at h2
          intro x hx
          simp only [relayAll, h1, h2, if_neg h1, Bool.false_eq_true, if_false,
            ite_false] at hx
          rcases List.mem_cons.mp hx with h3 | h3
          · subst h3
            exact ⟨rfl, h1⟩
          · exact ih x h3

theorem recvLoop_nil (parse : String → Option Json) (broken : Conn → Bool)
    (ws : Conn) (mems : List Conn) (sc : Bool) :
    recvLoop parse broken ws mems [] sc = ⟨[], sc⟩ := rfl

theorem recvLoop_skip (parse : String → Option Json) (broken : Conn → Bool)
    (ws : Conn) (mems : List Conn) {t : WSMsgType} (s : String)
    (ms : List WSMsg) (sc : Bool) (ht : t ≠ WSMsgType.TEXT) :
    recvLoop parse broken ws mems (⟨t, s⟩ :: ms) sc
      = recvLoop parse broken ws mems ms sc := by
  cases t
  case TEXT => exact absurd rfl ht
  all_goals rfl

theorem recvLoop_parse_failure (parse : String → Option Json) (broken : Conn → Bool)
    (ws : Conn) (mems : List Conn) {s : String} (ms : List WSMsg) (sc : Bool)
    (hp : parse s = none) :
    recvLoop parse broken ws mems (⟨WSMsgType.TEXT, s⟩ :: ms) sc = ⟨[], true⟩ := by
  simp [recvLoop, hp]

theorem recvLoop_text_ok (parse : String → Option Json) (broken : Conn → Bool)
    (ws : Conn) (mems : List Conn) {s : String} {payload : Json}
    (ms : List WSMsg) (sc : Bool) (hp : parse s = some payload)
    (h : ∀ p ∈ mems, p ≠ ws → broken p = false) :
    recvLoop parse broken ws mems (⟨WSMsgType.TEXT, s⟩ :: ms) sc
      = ⟨(mems.filter (fun p => p != ws)).map (fun p => (p, OutMsg.relay payload))
          ++ (recvLoop parse broken ws mems ms sc).sent,
         (recvLoop parse broken ws mems ms sc).raised⟩ := by
  simp [recvLoop, hp, relayAll_ok broken ws payload h]

theorem recvLoop_text_broken (parse : String → Option Json) (broken : Conn → Bool)
    (ws : Conn) {pre : List Conn} {b : Conn} (post : List Conn)
    {s : String} {payload : Json} (ms : List WSMsg) (sc : Bool)
    (hp : parse s = some payload)
    (hpre : ∀ p ∈ pre, p ≠ ws → broken p = false)
    (hb : broken b = true) (hbw : b ≠ ws) :
    recvLoop parse broken ws (pre ++ b :: post) (⟨WSMsgType.TEXT, s⟩ :: ms) sc
      = ⟨(pre.filter (fun p => p != ws)).map (fun p => (p, OutMsg.relay payload)), true⟩ := by
  simp [recvLoop, hp, relayAll_broken broken ws payload post hpre hb hbw]

theorem recvLoop_sent_form (parse : String → Option Json) (broken : Conn → Bool)
    (ws : Conn) (mems : List Conn) (msgs : List WSMsg) (sc : Bool) :
    ∀ x ∈ (recvLoop parse broken ws mems msgs sc).sent,
      (∃ q, x.2 = OutMsg.relay q) ∧ x.1 ≠ ws := by
  induction msgs with
  | nil => simp [recvLoop]
  | cons m ms ih =>
      obtain ⟨t, s⟩ := m
      cases t
      case TEXT =>
        cases hp : parse s with
        | none => simp [recvLoop, hp]
        | some payload =>
            intro x hx
            simp only [recvLoop, hp] at hx
            by_cases hd : (relayAll broken ws payload mems).2 = true
            · simp only [hd, if_true, ite_true] at hx
              have := relayAll_sent_form broken ws payload mems x hx
              exact ⟨⟨payload, this.1⟩, this.2⟩
            · simp only [hd, Bool.false_eq_true, if_false, ite_false] at hx
              rcases List.mem_append.mp hx with h3 | h3
              · have := relayAll_sent_form broken ws payload mems x h3
                exact ⟨⟨payload, this.1⟩, this.2⟩
              · exact ih x h3
      case ERROR => simpa [recvLoop] using ih
      all_goals simpa [recvLoop] using ih

/-! Unfolding lemmas for the handler. -/

theorem ws_handler_run (parse : String → Option Json) (broken : Conn → Bool)
    (reg0 : Registry) (rq : Option RoomId) (ws : Conn) (msgs : List WSMsg)
    (sc : Bool) (hbw : broken ws = false) :
    ws_handler parse broken reg0 rq ws msgs sc
      = ⟨leaveRoom (joinRoom reg0 (rq.getD "default") ws).1 (rq.getD "default") ws,
         (ws, OutMsg.joined (joinRoom reg0 (rq.getD "default") ws).2)
           :: notifyPeers broken ws (joinRoom reg0 (rq.getD "default") ws).2
                ((lookupRoom (joinRoom reg0 (rq.getD "default") ws).1
                    (rq.getD "default")).getD [])
           ++ (recvLoop parse broken ws
                ((lookupRoom (joinRoom reg0 (rq.getD "default") ws).1
                    (rq.getD "default")).getD []) msgs sc).sent,
         false,
         (recvLoop parse broken ws
            ((lookupRoom (joinRoom reg0 (rq.getD "default") ws).1
                (rq.getD "default")).getD []) msgs sc).raised⟩ := by
  simp [ws_handler, hbw]

theorem ws_handler_joined_send_fails (parse : String → Option Json)
    (broken : Conn → Bool) (reg0 : Registry) (rq : Option RoomId) (ws : Conn)
    (msgs : List WSMsg) (sc : Bool) (hbw : broken ws = true) :
    ws_handler parse broken reg0 rq ws msgs sc
      = ⟨(joinRoom reg0 (rq.getD "default") ws).1, [], true, false⟩ := by
  simp [ws_handler, hbw]

theorem ws_handler_existing (parse : String → Option Json) (broken : Conn → Bool)
    {reg0 : Registry} {room : RoomId} {ws : Conn} {ms : List Conn}
    (msgs : List WSMsg) (sc : Bool)
    (hl : lookupRoom reg0 room = some ms) (hws : ws ∉ ms)
    (hbw : broken ws = false) :
    ws_handler parse broken reg0 (some room) ws msgs sc
      = ⟨leaveRoom (updateRoom reg0 room (ms ++ [ws])) room ws,
         (ws, OutMsg.joined (ms.length + 1))
           :: notifyPeers broken ws (ms.length + 1) (ms ++ [ws])
           ++ (recvLoop parse broken ws (ms ++ [ws]) msgs sc).sent,
         false,
         (recvLoop parse broken ws (ms ++ [ws]) msgs sc).raised⟩ := by
  rw [ws_handler_run parse broken reg0 (some room) ws msgs sc hbw]
  have hgd : (Option.some room).getD "default" = room := rfl
  rw [hgd]
  have hj : joinRoom reg0 room ws = (updateRoom reg0 room (ms ++ [ws]), ms.length + 1) :=
    joinRoom_existing hl hws
  rw [hj]
  have hmem : lookupRoom (updateRoom reg0 room (ms ++ [ws])) room = some (ms ++ [ws]) :=
    lookupRoom_updateRoom_self _ hl
  simp [hmem]

theorem notifyPeers_append_self (broken : Conn → Bool) {ws : Conn} (n : Nat)
    {ms : List Conn} (hws : ws ∉ ms) :
    notifyPeers broken ws n (ms ++ [ws])
      = (ms.filter (fun p => !broken p)).map (fun p => (p, OutMsg.peers n)) := by
  rw [notifyPeers_eq, List.filter_append]
  have h2 : [ws].filter (fun p => p != ws && !broken p) = [] := by simp
  rw [h2, List.append_nil]
  have h1 : ms.filter (fun p => p != ws && !broken p)
      = ms.filter (fun p => !broken p) := by
    apply List.filter_congr
    intro p hp
    have hne : p ≠ ws := fun hc => hws (hc ▸ hp)
    simp [hne]
  rw [h1]

theorem notifyPeers_append_self_ok (broken : Conn → Bool) {ws : Conn} (n : Nat)
    {ms : List Conn} (hws : ws ∉ ms) (hok : ∀ p ∈ ms, broken p = false) :
    notifyPeers broken ws n (ms ++ [ws]) = ms.map (fun p => (p, OutMsg.peers n)) := by
  rw [notifyPeers_append_self broken n hws]
  have : ms.filter (fun p => !broken p) = ms :=
    List.filter_eq_self.mpr (fun p hp => by simp [hok p hp])
  rw [this]

theorem joinCounts_existing (room : RoomId) (cs : List Conn) :
    ∀ (reg : Registry) (ms : List Conn), RegWF reg →
      lookupRoom reg room = some ms → (∀ c ∈ cs, c ∉ ms) → cs.Nodup →
      joinCounts reg room cs = List.range' (ms.length + 1) cs.length := by
  induction cs with
  | nil =>
      intro reg ms _ _ _ _
      rfl
  | cons c cs ih =>
      intro reg ms hwf hl hdisj hnd
      have hc : c ∉ ms := hdisj c (List.mem_cons_self _ _)
      have hj := joinRoom_existing hl hc
      have hl' : lookupRoom (joinRoom reg room c).1 room = some (ms ++ [c]) :=
        lookupRoom_joinRoom_self hl hc
      have hwf' : RegWF (joinRoom reg room c).1 := RegWF_joinRoom room c hwf
      have hdisj' : ∀ q ∈ cs, q ∉ ms ++ [c] := by
        intro q hq
        simp only [List.mem_append, List.mem_singleton, not_or]
        exact ⟨hdisj q (List.mem_cons_of_mem _ hq),
          fun hqc => (List.nodup_cons.mp hnd).1 (hqc ▸ hq)⟩
      have hrec := ih (joinRoom reg room c).1 (ms ++ [c]) hwf' hl' hdisj'
        (List.nodup_cons.mp hnd).2
      simp only [joinCounts]
      rw [hrec]
      have h2 : (joinRoom reg room c).2 = ms.length + 1 := by rw [hj]
      rw [h2]
      simp [List.range'_succ]

/-- Claim C3: for every sequence of joins to the same room identifier, the
count carried in the `joined` notification sent to the Nth joiner is N, and in
general the reported count equals the size of the room's member set at the
moment immediately after the join. -/
theorem C3_joined_count_is_room_size (reg : Registry) (room : RoomId)
    (cs : List Conn) (hwf : RegWF reg) (habs : lookupRoom reg room = none)
    (hnd : cs.Nodup) :
    joinCounts reg room cs = List.range' 1 cs.length ∧
    ∀ (reg' : Registry) (c : Conn),
      (joinRoom reg' room c).2
        = ((lookupRoom (joinRoom reg' room c).1 room).getD []).length := by
  constructor
  · cases cs with
    | nil => rfl
    | cons c cs' =>
        have hj := joinRoom_fresh c habs
        have hl' : lookupRoom (joinRoom reg room c).1 room = some [c] := by
          rw [hj]
          exact lookupRoom_append_self _ habs
        have hwf' := RegWF_joinRoom room c hwf
        have hdisj' : ∀ q ∈ cs', q ∉ [c] := by
          intro q hq
          simp only [List.mem_singleton]
          exact fun hqc => (List.nodup_cons.mp hnd).1 (hqc ▸ hq)
        have hrec := joinCounts_existing room cs' (joinRoom reg room c).1 [c] hwf' hl'
          hdisj' (List.nodup_cons.mp hnd).2
        simp only [joinCounts]
        rw [hrec]
        have h2 : (joinRoom reg room c).2 = 1 := by rw [hj]
        rw [h2]
        simp [List.range'_succ]
  · intro reg' c
    exact joinRoom_count reg' room c

/-- Claim C3 witness: two distinct joins to a fresh room report counts 1, 2. -/
theorem C3_joined_count_is_room_size_witness :
    RegWF ([] : Registry) ∧
    (joinCounts [] "r" [4, 5] = List.range' 1 2 ∧
     ∀ (reg' : Registry) (c : Conn),
       (joinRoom reg' "r" c).2
         = ((lookupRoom (joinRoom reg' "r" c).1 "r").getD []).length) :=
  ⟨by decide, C3_joined_count_is_room_size [] "r" [4, 5] (by decide) (by decide)
    (by decide)⟩

/-- Claim C6: a room identifier is present in the registry iff its member set
is non-empty; join and leave preserve this invariant, leaving as the last
member removes the identifier, and a join to an absent identifier starts a
fresh room whose first joiner is reported count 1. -/
theorem C6_registry_invariant (reg : Registry) (r : RoomId) (c : Conn)
    (h : RegWF reg) :
    RegWF (joinRoom reg r c).1 ∧ RegWF (leaveRoom reg r c) ∧
    (∀ r', lookupRoom reg r' ≠ none ↔ (lookupRoom reg r').getD [] ≠ []) ∧
    (lookupRoom reg r = some [c] → lookupRoom (leaveRoom reg r c) r = none) ∧
    (lookupRoom reg r = none → (joinRoom reg r c).2 = 1) := by
  refine ⟨RegWF_joinRoom r c h, RegWF_leaveRoom r c h, ?_, ?_, ?_⟩
  · intro r'
    cases hl : lookupRoom reg r' with
    | none => simp
    | some ms =>
        have := (h.2 (r', ms) (lookupRoom_mem hl)).1
        simp [this]
  · intro hl
    exact leaveRoom_last hl
  · intro hl
    rw [joinRoom_fresh c hl]

/-- Claim C6 witness: concrete singleton room, its only member leaving. -/
theorem C6_registry_invariant_witness :
    RegWF ([("a", [1])] : Registry) ∧
    (RegWF (joinRoom [("a", [1])] "a" 1).1 ∧ RegWF (leaveRoom [("a", [1])] "a" 1) ∧
     (∀ r', lookupRoom [("a", [1])] r' ≠ none
        ↔ (lookupRoom [("a", [1])] r').getD [] ≠ []) ∧
     (lookupRoom [("a", [1])] "a" = some [1]
        → lookupRoom (leaveRoom [("a", [1])] "a" 1) "a" = none) ∧
     (lookupRoom [("a", [1])] "a" = none → (joinRoom [("a", [1])] "a" 1).2 = 1)) :=
  ⟨by decide, C6_registry_invariant [("a", [1])] "a" 1 (by decide)⟩

/-- Claim C7: leave is idempotent, leaving a connection that is not a member
is a no-op on the registry, and leaving never affects the membership of any
other room. -/
theorem C7_leave_idempotent (reg : Registry) (r : RoomId) (c : Conn)
    (h : RegWF reg) :
    leaveRoom (leaveRoom reg r c) r c = leaveRoom reg r c ∧
    ((∀ ms, lookupRoom reg r = some ms → c ∉ ms) → leaveRoom reg r c = reg) ∧
    (∀ r', r' ≠ r → lookupRoom (leaveRoom reg r c) r' = lookupRoom reg r') :=
  ⟨leaveRoom_idem reg r c, fun hc => leaveRoom_no_op h hc,
    fun _ hr => lookupRoom_leaveRoom_ne reg c hr⟩

/-- Claim C7 witness: leaving a connection that never joined the room. -/
theorem C7_leave_idempotent_witness :
    RegWF ([("a", [1, 2])] : Registry) ∧
    (leaveRoom (leaveRoom [("a", [1, 2])] "a" 3) "a" 3
        = leaveRoom [("a", [1, 2])] "a" 3 ∧
     ((∀ ms, lookupRoom [("a", [1, 2])] "a" = some ms → 3 ∉ ms)
        → leaveRoom [("a", [1, 2])] "a" 3 = [("a", [1, 2])]) ∧
     (∀ r', r' ≠ "a"
        → lookupRoom (leaveRoom [("a", [1, 2])] "a" 3) r'
            = lookupRoom [("a", [1, 2])] r')) :=
  ⟨by decide, C7_leave_idempotent [("a", [1, 2])] "a" 3 (by decide)⟩

/-- Claim C4: on a successful join, every existing member of the room — and
not the new joiner — is sent a `peers` notification carrying the updated
member count, and no connection is ever sent a `peers` notification for its
own join. -/
theorem C4_peers_notify_existing_members (parse : String → Option Json)
    (broken : Conn → Bool) (reg0 : Registry) (room : RoomId) (ws : Conn)
    (ms : List Conn) (msgs : List WSMsg) (sc : Bool)
    (hl : lookupRoom reg0 room = some ms) (hws : ws ∉ ms)
    (hbw : broken ws = false) (hok : ∀ p ∈ ms, broken p = false) :
    (∃ rest,
      (ws_handler parse broken reg0 (some room) ws msgs sc).sent
        = (ws, OutMsg.joined (ms.length + 1))
            :: ms.map (fun p => (p, OutMsg.peers (ms.length + 1))) ++ rest) ∧
    ∀ n, (ws, OutMsg.peers n)
        ∉ (ws_handler parse broken reg0 (some room) ws msgs sc).sent := by
  constructor
  · refine ⟨(recvLoop parse broken ws (ms ++ [ws]) msgs sc).sent, ?_⟩
    rw [ws_handler_existing parse broken msgs sc hl hws hbw]
    dsimp only
    rw [notifyPeers_append_self_ok broken _ hws hok]
  · intro n hmem
    rw [ws_handler_existing parse broken msgs sc hl hws hbw] at hmem
    dsimp only at hmem
    rw [notifyPeers_append_self_ok broken _ hws hok] at hmem
    rcases List.mem_cons.mp hmem with h1 | h1
    · simp at h1
    · rcases List.mem_append.mp h1 with h2 | h2
      · obtain ⟨p, hp, hpe⟩ := List.mem_map.mp h2
        have hpw : p = ws := congrArg Prod.fst hpe
        exact hws (hpw ▸ hp)
      · obtain ⟨⟨q, hq⟩, _⟩ :=
          recvLoop_sent_form parse broken ws (ms ++ [ws]) msgs sc _ h2
        simp at hq

/-- Claim C4 witness: one existing member, one joiner, empty trace. -/
theorem C4_peers_notify_existing_members_witness :
    (∃ rest,
      (ws_handler (fun _ => none) (fun _ => false) [("r", [5])] (some "r") 6
          [] false).sent
        = (6, OutMsg.joined 2) :: [5].map (fun p => (p, OutMsg.peers 2)) ++ rest) ∧
    ∀ n, (6, OutMsg.peers n)
        ∉ (ws_handler (fun _ => none) (fun _ => false) [("r", [5])] (some "r") 6
            [] false).sent :=
  C4_peers_notify_existing_members (fun _ => none) (fun _ => false) [("r", [5])]
    "r" 6 [5] [] false (by decide) (by decide) (by decide) (by decide)

/-- Claim C5: a well-formed envelope sent by a member is relayed, with the
payload value unchanged, to every other current member of its room, and never
echoed back to the sender. -/
theorem C5_broadcast_verbatim (parse : String → Option Json)
    (broken : Conn → Bool) (reg0 : Registry) (room : RoomId) (ws : Conn)
    (ms : List Conn) (s : String) (payload : Json)
    (hl : lookupRoom reg0 room = some ms) (hws : ws ∉ ms)
    (hbw : broken ws = false) (hok : ∀ p ∈ ms, broken p = false)
    (hp : parse s = some payload) :
    (ws_handler parse broken reg0 (some room) ws [⟨WSMsgType.TEXT, s⟩] false).sent
      = (ws, OutMsg.joined (ms.length + 1))
          :: ms.map (fun p => (p, OutMsg.peers (ms.length + 1)))
          ++ ms.map (fun p => (p, OutMsg.relay payload)) ∧
    (∀ p ∈ ms, (p, OutMsg.relay payload)
        ∈ (ws_handler parse broken reg0 (some room) ws
            [⟨WSMsgType.TEXT, s⟩] false).sent) ∧
    ∀ q, (ws, OutMsg.relay q)
        ∉ (ws_handler parse broken reg0 (some room) ws
            [⟨WSMsgType.TEXT, s⟩] false).sent := by
  have hmems : ∀ p ∈ ms ++ [ws], p ≠ ws → broken p = false := by
    intro p hpm hpw
    rcases List.mem_append.mp hpm with h | h
    · exact hok p h
    · simp at h
      exact absurd h hpw
  have hfil : (ms ++ [ws]).filter (fun p => p != ws) = ms := by
    rw [List.filter_append]
    have h1 : ms.filter (fun p => p != ws) = ms :=
      List.filter_eq_self.mpr (fun p hpm => by
        have hne : p ≠ ws := fun hc => hws (hc ▸ hpm)
        simp [hne])
    simp [h1]
  have hstep : recvLoop parse broken ws (ms ++ [ws]) [⟨WSMsgType.TEXT, s⟩] false
      = ⟨ms.map (fun p => (p, OutMsg.relay payload)), false⟩ := by
    rw [recvLoop_text_ok parse broken ws (ms ++ [ws]) [] false hp hmems,
      recvLoop_nil, hfil]
    simp
  have hmain : (ws_handler parse broken reg0 (some room) ws
      [⟨WSMsgType.TEXT, s⟩] false).sent
      = (ws, OutMsg.joined (ms.length + 1))
          :: ms.map (fun p => (p, OutMsg.peers (ms.length + 1)))
          ++ ms.map (fun p => (p, OutMsg.relay payload)) := by
    rw [ws_handler_existing parse broken [⟨WSMsgType.TEXT, s⟩] false hl hws hbw]
    dsimp only
    rw [notifyPeers_append_self_ok broken _ hws hok, hstep]
  refine ⟨hmain, ?_, ?_⟩
  · intro p hpm
    rw [hmain]
    exact List.mem_cons_of_mem _ (List.mem_append.mpr
      (Or.inr (List.mem_map_of_mem _ hpm)))
  · intro q hqm
    rw [hmain] at hqm
    rcases List.mem_cons.mp hqm with h1 | h1
    · simp at h1
    · rcases List.mem_append.mp h1 with h2 | h2
      · obtain ⟨p, hpm, hpe⟩ := List.mem_map.mp h2
        have := congrArg Prod.snd hpe
        simp at this
      · obtain ⟨p, hpm, hpe⟩ := List.mem_map.mp h2
        have hfst : p = ws := congrArg Prod.fst hpe
        exact hws (hfst ▸ hpm)

/-- Claim C5 witness: member 5 receives the sender's payload verbatim, the
sender 6 receives nothing. -/
theorem C5_broadcast_verbatim_witness :
    (ws_handler (fun s => if s = "m" then some (Json.str "X") else none)
        (fun _ => false) [("r", [5])] (some "r") 6
        [⟨WSMsgType.TEXT, "m"⟩] false).sent
      = (6, OutMsg.joined 2) :: [5].map (fun p => (p, OutMsg.peers 2))
          ++ [5].map (fun p => (p, OutMsg.relay (Json.str "X"))) ∧
    (∀ p ∈ [5], (p, OutMsg.relay (Json.str "X"))
        ∈ (ws_handler (fun s => if s = "m" then some (Json.str "X") else none)
            (fun _ => false) [("r", [5])] (some "r") 6
            [⟨WSMsgType.TEXT, "m"⟩] false).sent) ∧
    ∀ q, (6, OutMsg.relay q)
        ∉ (ws_handler (fun s => if s = "m" then some (Json.str "X") else none)
            (fun _ => false) [("r", [5])] (some "r") 6
            [⟨WSMsgType.TEXT, "m"⟩] false).sent :=
  C5_broadcast_verbatim (fun s => if s = "m" then some (Json.str "X") else none)
    (fun _ => false) [("r", [5])] "r" 6 [5] "m" (Json.str "X")
    (by decide) (by decide) (by decide) (by decide) rfl

/-- Claim C9: a failure to deliver the join-time `peers` notification to one
existing member is swallowed per member — every non-failing existing member is
still notified, the joiner's join has completed (it is a room member), and no
error escapes the join phase. -/
theorem C9_notify_failure_swallowed (parse : String → Option Json)
    (broken : Conn → Bool) (reg0 : Registry) (room : RoomId) (ws : Conn)
    (ms : List Conn) (msgs : List WSMsg) (sc : Bool)
    (hl : lookupRoom reg0 room = some ms) (hws : ws ∉ ms)
    (hbw : broken ws = false) :
    (ws_handler parse broken reg0 (some room) ws msgs sc).joinRaised = false ∧
    (∃ rest,
      (ws_handler parse broken reg0 (some room) ws msgs sc).sent
        = (ws, OutMsg.joined (ms.length + 1))
            :: (ms.filter (fun p => !broken p)).map
                 (fun p => (p, OutMsg.peers (ms.length + 1))) ++ rest) ∧
    ws ∈ (lookupRoom (joinRoom reg0 room ws).1 room).getD [] := by
  refine ⟨?_, ⟨(recvLoop parse broken ws (ms ++ [ws]) msgs sc).sent, ?_⟩, ?_⟩
  · rw [ws_handler_existing parse broken msgs sc hl hws hbw]
  · rw [ws_handler_existing parse broken msgs sc hl hws hbw]
    dsimp only
    rw [notifyPeers_append_self broken _ hws]
  · rw [lookupRoom_joinRoom_self hl hws]
    simp

/-- Claim C9 witness: member 5's notification fails, member 7 is still
notified and joiner 6 is in the room. -/
theorem C9_notify_failure_swallowed_witness :
    (ws_handler (fun _ => none) (fun c => c == 5) [("r", [5, 7])] (some "r") 6
        [] false).joinRaised = false ∧
    (∃ rest,
      (ws_handler (fun _ => none) (fun c => c == 5) [("r", [5, 7])] (some "r") 6
          [] false).sent
        = (6, OutMsg.joined 3)
            :: ([5, 7].filter (fun p => !(p == 5))).map
                 (fun p => (p, OutMsg.peers 3)) ++ rest) ∧
    6 ∈ (lookupRoom (joinRoom [("r", [5, 7])] "r" 6).1 "r").getD [] :=
  C9_notify_failure_swallowed (fun _ => none) (fun c => c == 5) [("r", [5, 7])]
    "r" 6 [5, 7] [] false (by decide) (by decide) (by decide)

/-- Claim C10: an inbound frame that is neither a text frame nor an error
frame is silently ignored: the whole handler run behaves exactly as if the
frame had not arrived — nothing is relayed, nothing raises, membership is
untouched, and the session keeps receiving the rest of the trace. -/
theorem C10_nontext_ignored (parse : String → Option Json) (broken : Conn → Bool)
    (reg0 : Registry) (rq : Option RoomId) (ws : Conn) (m : WSMsg)
    (ms : List WSMsg) (sc : Bool)
    (ht : m.type ≠ WSMsgType.TEXT) (he : m.type ≠ WSMsgType.ERROR) :
    ws_handler parse broken reg0 rq ws (m :: ms) sc
      = ws_handler parse broken reg0 rq ws ms sc := by
  obtain ⟨t, s⟩ := m
  simp only at ht he
  by_cases hbw : broken ws = true
  · rw [ws_handler_joined_send_fails parse broken reg0 rq ws (⟨t, s⟩ :: ms) sc hbw,
      ws_handler_joined_send_fails parse broken reg0 rq ws ms sc hbw]
  · simp only [Bool.not_eq_true] at hbw
    rw [ws_handler_run parse broken reg0 rq ws (⟨t, s⟩ :: ms) sc hbw,
      ws_handler_run parse broken reg0 rq ws ms sc hbw,
      recvLoop_skip parse broken ws _ s ms sc ht]

/-- Claim C10 witness: a binary frame in front of a trace changes nothing. -/
theorem C10_nontext_ignored_witness :
    (WSMsgType.BINARY ≠ WSMsgType.TEXT ∧ WSMsgType.BINARY ≠ WSMsgType.ERROR) ∧
    ws_handler (fun _ => none) (fun _ => false) [] (some "r") 1
        [⟨WSMsgType.BINARY, "blob"⟩] false
      = ws_handler (fun _ => none) (fun _ => false) [] (some "r") 1 [] false :=
  ⟨by decide, C10_nontext_ignored (fun _ => none) (fun _ => false) [] (some "r") 1
    ⟨WSMsgType.BINARY, "blob"⟩ [] false (by decide) (by decide)⟩

/-- Claim C1 counterexample: room `"r"` holds members 20 and 10; sender 30
joins and broadcasts; delivery to 20 fails. The relay loop has no
try/except, so the failure IS surfaced (the loop raises) and the remaining
recipient 10 never receives the payload. -/
theorem C1_counterexample :
    (ws_handler (fun _ => some (Json.str "sdp")) (fun c => c == 20)
        [("r", [20, 10])] (some "r") 30 [⟨WSMsgType.TEXT, "m"⟩] false).loopRaised
      = true ∧
    (10, OutMsg.relay (Json.str "sdp"))
      ∉ (ws_handler (fun _ => some (Json.str "sdp")) (fun c => c == 20)
          [("r", [20, 10])] (some "r") 30 [⟨WSMsgType.TEXT, "m"⟩] false).sent := by
  have hs : (ws_handler (fun _ => some (Json.str "sdp")) (fun c => c == 20)
      [("r", [20, 10])] (some "r") 30 [⟨WSMsgType.TEXT, "m"⟩] false).sent
      = [(30, OutMsg.joined 3), (10, OutMsg.peers 3)] := rfl
  refine ⟨rfl, ?_⟩
  rw [hs]
  simp

/-- Claim C1 amended: a failed delivery during the relay loop is not
swallowed: the members before the failing one in iteration order have
received the payload, the members after it receive nothing, the exception
escapes the relay loop and terminates the sender's receive loop, and the
sender is then removed from the room by the `finally` cleanup. -/
theorem C1_relay_failure_propagates (parse : String → Option Json)
    (broken : Conn → Bool) (reg0 : Registry) (room : RoomId) (ws : Conn)
    (pre post : List Conn) (b : Conn) (s : String) (payload : Json)
    (hwf : RegWF reg0)
    (hl : lookupRoom reg0 room = some (pre ++ b :: post))
    (hws : ws ∉ pre ++ b :: post)
    (hbw : broken ws = false)
    (hpre : ∀ p ∈ pre, broken p = false)
    (hb : broken b = true)
    (hp : parse s = some payload) :
    (ws_handler parse broken reg0 (some room) ws
        [⟨WSMsgType.TEXT, s⟩] false).loopRaised = true ∧
    (ws_handler parse broken reg0 (some room) ws
        [⟨WSMsgType.TEXT, s⟩] false).sent
      = (ws, OutMsg.joined ((pre ++ b :: post).length + 1))
          :: notifyPeers broken ws ((pre ++ b :: post).length + 1)
               ((pre ++ b :: post) ++ [ws])
          ++ pre.map (fun p => (p, OutMsg.relay payload)) ∧
    (∀ q ∈ post, ∀ pl, (q, OutMsg.relay pl)
        ∉ (ws_handler parse broken reg0 (some room) ws
            [⟨WSMsgType.TEXT, s⟩] false).sent) ∧
    ws ∉ (lookupRoom (ws_handler parse broken reg0 (some room) ws
        [⟨WSMsgType.TEXT, s⟩] false).reg room).getD [] := by
  have hbnw : b ≠ ws := fun hc => hws (hc ▸ List.mem_append.mpr
    (Or.inr (List.mem_cons_self _ _)))
  have hwpre : ws ∉ pre := fun hc => hws (List.mem_append.mpr (Or.inl hc))
  have hpre' : ∀ p ∈ pre, p ≠ ws → broken p = false := fun p hpm _ => hpre p hpm
  have hassoc : (pre ++ b :: post) ++ [ws] = pre ++ b :: (post ++ [ws]) := by
    simp [List.append_assoc]
  have hloop : recvLoop parse broken ws ((pre ++ b :: post) ++ [ws])
      [⟨WSMsgType.TEXT, s⟩] false
      = ⟨(pre.filter (fun p => p != ws)).map (fun p => (p, OutMsg.relay payload)),
         true⟩ := by
    rw [hassoc]
    exact recvLoop_text_broken parse broken ws (post ++ [ws]) [] false hp hpre' hb hbnw
  have hfil : pre.filter (fun p => p != ws) = pre :=
    List.filter_eq_self.mpr (fun p hpm => by
      have hne : p ≠ ws := fun hc => hwpre (hc ▸ hpm)
      simp [hne])
  rw [hfil] at hloop
  have hrun := ws_handler_existing parse broken [⟨WSMsgType.TEXT, s⟩] false hl hws hbw
  refine ⟨?_, ?_, ?_, ?_⟩
  · rw [hrun]
    dsimp only
    rw [hloop]
  · rw [hrun]
    dsimp only
    rw [hloop]
  · intro q hq pl hmem
    rw [hrun] at hmem
    dsimp only at hmem
    rw [hloop] at hmem
    have hnd : (pre ++ b :: post).Nodup :=
      (hwf.2 (room, pre ++ b :: post) (lookupRoom_mem hl)).2
    have hqpre : q ∉ pre := by
      intro hqp
      have hdis := (List.nodup_append.mp hnd).2.2
      exact hdis hqp (List.mem_cons_of_mem _ hq)
    rcases List.mem_cons.mp hmem with h1 | h1
    · have := congrArg Prod.snd h1
      simp at this
    · rcases List.mem_append.mp h1 with h2 | h2
      · rw [notifyPeers_eq] at h2
        obtain ⟨p, hpm, hpe⟩ := List.mem_map.mp h2
        have := congrArg Prod.snd hpe
        simp at this
      · obtain ⟨p, hpm, hpe⟩ := List.mem_map.mp h2
        have hfst : p = q := congrArg Prod.fst hpe
        exact hqpre (hfst ▸ hpm)
  · rw [hrun]
    dsimp only
    exact leaveRoom_self_not_mem _ _ _

/-- Claim C1 amended witness: members 10, 20, 30 in order; sender 40
broadcasts; 20 is broken, 10 is delivered, 30 is not, the loop raises and
40 is cleaned out. -/
theorem C1_relay_failure_propagates_witness :
    (ws_handler (fun _ => some (Json.str "x")) (fun c => c == 20)
        [("r", [10, 20, 30])] (some "r") 40
        [⟨WSMsgType.TEXT, "m"⟩] false).loopRaised = true ∧
    (ws_handler (fun _ => some (Json.str "x")) (fun c => c == 20)
        [("r", [10, 20, 30])] (some "r") 40
        [⟨WSMsgType.TEXT, "m"⟩] false).sent
      = (40, OutMsg.joined (([10] ++ 20 :: [30]).length + 1))
          :: notifyPeers (fun c => c == 20) 40 (([10] ++ 20 :: [30]).length + 1)
               (([10] ++ 20 :: [30]) ++ [40])
          ++ [10].map (fun p => (p, OutMsg.relay (Json.str "x"))) ∧
    (∀ q ∈ [30], ∀ pl, (q, OutMsg.relay pl)
        ∉ (ws_handler (fun _ => some (Json.str "x")) (fun c => c == 20)
            [("r", [10, 20, 30])] (some "r") 40
            [⟨WSMsgType.TEXT, "m"⟩] false).sent) ∧
    40 ∉ (lookupRoom (ws_handler (fun _ => some (Json.str "x")) (fun c => c == 20)
        [("r", [10, 20, 30])] (some "r") 40
        [⟨WSMsgType.TEXT, "m"⟩] false).reg "r").getD [] :=
  C1_relay_failure_propagates (fun _ => some (Json.str "x")) (fun c => c == 20)
    [("r", [10, 20, 30])] "r" 40 [10] [30] 20 "m" (Json.str "x")
    (by decide) (by decide) (by decide) (by decide) (by decide) (by decide) rfl

/-- Claim C2 counterexample: member 5 is in room `"r"`; session 6 joins and
receives an ill-formed text frame followed by a well-formed one. The
`json.loads` exception terminates the session: the loop raises, the later
well-formed message is never relayed, and 6 is removed from the room. -/
theorem C2_counterexample :
    (ws_handler (fun s => if s = "ok" then some (Json.str "x") else none)
        (fun _ => false) [("r", [5])] (some "r") 6
        [⟨WSMsgType.TEXT, "bad"⟩, ⟨WSMsgType.TEXT, "ok"⟩] false).loopRaised
      = true ∧
    (5, OutMsg.relay (Json.str "x"))
      ∉ (ws_handler (fun s => if s = "ok" then some (Json.str "x") else none)
          (fun _ => false) [("r", [5])] (some "r") 6
          [⟨WSMsgType.TEXT, "bad"⟩, ⟨WSMsgType.TEXT, "ok"⟩] false).sent ∧
    lookupRoom (ws_handler (fun s => if s = "ok" then some (Json.str "x") else none)
        (fun _ => false) [("r", [5])] (some "r") 6
        [⟨WSMsgType.TEXT, "bad"⟩, ⟨WSMsgType.TEXT, "ok"⟩] false).reg "r"
      = some [5] := by
  have hs : (ws_handler (fun s => if s = "ok" then some (Json.str "x") else none)
      (fun _ => false) [("r", [5])] (some "r") 6
      [⟨WSMsgType.TEXT, "bad"⟩, ⟨WSMsgType.TEXT, "ok"⟩] false).sent
      = [(6, OutMsg.joined 2), (5, OutMsg.peers 2)] := rfl
  refine ⟨rfl, ?_, rfl⟩
  rw [hs]
  simp

/-- Claim C2 amended: an ill-formed text message makes `json.loads` raise,
which terminates the receiving session's receive loop: the message is dropped
and nothing at all is relayed (neither it nor any later message of the trace),
and the session leaves its room via the `finally` cleanup. -/
theorem C2_parse_failure_terminates (parse : String → Option Json)
    (broken : Conn → Bool) (reg0 : Registry) (room : RoomId) (ws : Conn)
    (s : String) (more : List WSMsg) (sc : Bool)
    (hbw : broken ws = false) (hp : parse s = none) :
    (ws_handler parse broken reg0 (some room) ws
        (⟨WSMsgType.TEXT, s⟩ :: more) sc).loopRaised = true ∧
    (∀ x ∈ (ws_handler parse broken reg0 (some room) ws
        (⟨WSMsgType.TEXT, s⟩ :: more) sc).sent, ∀ pl, x.2 ≠ OutMsg.relay pl) ∧
    ws ∉ (lookupRoom (ws_handler parse broken reg0 (some room) ws
        (⟨WSMsgType.TEXT, s⟩ :: more) sc).reg room).getD [] := by
  have hrun := ws_handler_run parse broken reg0 (some room) ws
    (⟨WSMsgType.TEXT, s⟩ :: more) sc hbw
  have hgd : (Option.some room).getD "default" = room := rfl
  rw [hgd] at hrun
  rw [hrun]
  dsimp only
  rw [recvLoop_parse_failure parse broken ws _ more sc hp]
  refine ⟨rfl, ?_, leaveRoom_self_not_mem _ _ _⟩
  intro x hx pl
  rcases List.mem_cons.mp hx with h1 | h1
  · subst h1
    simp
  · rcases List.mem_append.mp h1 with h2 | h2
    · rw [notifyPeers_eq] at h2
      obtain ⟨p, hpm, hpe⟩ := List.mem_map.mp h2
      rw [← hpe]
      simp
    · simp at h2

/-- Claim C2 amended witness: a lone unparseable frame terminates session 1
and removes it from room `"r"`. -/
theorem C2_parse_failure_terminates_witness :
    (ws_handler (fun _ => none) (fun _ => false) [] (some "r") 1
        (⟨WSMsgType.TEXT, "bad"⟩ :: []) false).loopRaised = true ∧
    (∀ x ∈ (ws_handler (fun _ => none) (fun _ => false) [] (some "r") 1
        (⟨WSMsgType.TEXT, "bad"⟩ :: []) false).sent, ∀ pl, x.2 ≠ OutMsg.relay pl) ∧
    1 ∉ (lookupRoom (ws_handler (fun _ => none) (fun _ => false) [] (some "r") 1
        (⟨WSMsgType.TEXT, "bad"⟩ :: []) false).reg "r").getD [] :=
  C2_parse_failure_terminates (fun _ => none) (fun _ => false) [] "r" 1 "bad" []
    false (by decide) rfl

/-- Claim C8 counterexample: the `joined` send happens before the
`try`/`finally`; if it raises, the handler exits with no cleanup and the
terminated connection 7 stays registered as a member of room `"r"`. -/
theorem C8_counterexample :
    (ws_handler (fun _ => none) (fun c => c == 7) [] (some "r") 7 []
        false).joinRaised = true ∧
    (ws_handler (fun _ => none) (fun c => c == 7) [] (some "r") 7 []
        false).reg = [("r", [7])] :=
  ⟨rfl, rfl⟩

/-- Claim C8 amended: on every termination path that reaches the receive loop
— normal close, transport error ending the iteration, or an exception
escaping the loop (parse failure, relay delivery failure) — the `finally`
cleanup removes the session from its room; only a failure of the initial
`joined` send, which precedes the `try`, skips the cleanup. -/
theorem C8_cleanup_on_every_loop_exit (parse : String → Option Json)
    (broken : Conn → Bool) (reg0 : Registry) (rq : Option RoomId) (ws : Conn)
    (msgs : List WSMsg) (sc : Bool) (hbw : broken ws = false) :
    (ws_handler parse broken reg0 rq ws msgs sc).joinRaised = false ∧
    ws ∉ (lookupRoom (ws_handler parse broken reg0 rq ws msgs sc).reg
        (rq.getD "default")).getD [] := by
  rw [ws_handler_run parse broken reg0 rq ws msgs sc hbw]
  exact ⟨rfl, leaveRoom_self_not_mem _ _ _⟩

/-- Claim C8 amended witness: a trace ending in a transport error after an
unparseable frame still leaves the registry without connection 3. -/
theorem C8_cleanup_on_every_loop_exit_witness :
    ((fun _ : Conn => false) 3 = false) ∧
    ((ws_handler (fun _ => none) (fun _ => false) [("r", [2])] (some "r") 3
        [⟨WSMsgType.TEXT, "bad"⟩] true).joinRaised = false ∧
     3 ∉ (lookupRoom (ws_handler (fun _ => none) (fun _ => false) [("r", [2])]
        (some "r") 3 [⟨WSMsgType.TEXT, "bad"⟩] true).reg
        ((Option.some "r").getD "default")).getD []) :=
  ⟨rfl, C8_cleanup_on_every_loop_exit (fun _ => none) (fun _ => false)
    [("r", [2])] (some "r") 3 [⟨WSMsgType.TEXT, "bad"⟩] true rfl⟩

end WebRTCSignaling
